import Mathlib

/-!
# Verification of the EMILY tracker perception pipeline (src/main.cpp)

A shallow embedding of the per-frame perception pipeline of the EMILY
unmanned-surface-vehicle tracker:

* colour thresholding (`inRangeHSV`, `addWeightedSat`, `combined_threshold`,
  main.cpp lines 695-705),
* trackbar kernel-size normalization (`on_trackbar`, lines 193-210),
* contour extraction on a copy of the mask (`find_contours_step`, lines 790-793),
* blob selection by maximal area (`blobStep`, `selectLoop`, `selectBlob`,
  lines 796-840),
* pose estimation from a rotated bounding rectangle (`shortestScan`,
  `axisEndpoints`, `get_size_sq`, from `draw_principal_axis` lines 358-392 and
  `get_size` lines 394-423),
* the per-frame static-pipeline output (`staticFrame`, lines 840-910),
* the CamShift search-window reinflation (`reinflate`, lines 969-975),
* the interactive selection state machine (`onMouse` lines 260-304 and the
  CamShift branch of `main`, lines 914-999: `processFrame`).

Machine doubles are modelled as exact rationals (ℚ); C `int`s as ℤ or ℕ.
Conversions from floating point to `int` (OpenCV `saturate_cast<int>`, i.e.
`cvRound`, round half to even) are modelled by `roundHE`; C++ `double → int`
casts (truncation toward zero) by `ratTrunc`.
-/

/-- Truncation toward zero of a rational, as in a C++ `double` → `int` cast
(used for `x = moment.m10 / area` in main.cpp line 820). -/
def ratTrunc (q : ℚ) : ℤ :=
  Int.tdiv q.num (q.den : ℤ)

/-- Floor of a rational (`num.ediv den` with a positive denominator). -/
def ratFloor (q : ℚ) : ℤ :=
  Int.ediv q.num (q.den : ℤ)

/-- Round half to even, the behaviour of OpenCV `cvRound` / `saturate_cast<int>`
on the default x86 rounding mode.  This is applied when a `Point2f` expression
is stored into an integer `Point` (main.cpp lines 386-387 and 417-418). -/
def roundHE (q : ℚ) : ℤ :=
  if q - (ratFloor q : ℚ) = 1 / 2 then
    (if 2 ∣ ratFloor q then ratFloor q else ratFloor q + 1)
  else ratFloor (q + 1 / 2)

/-- `cv::Rect_<int>`: x, y of the top-left corner, then width and height. -/
structure CvRect where
  x : ℤ
  y : ℤ
  width : ℤ
  height : ℤ
deriving DecidableEq, Repr

/-- `cv::Rect::area()`. -/
def CvRect.area (r : CvRect) : ℤ :=
  r.width * r.height

/-- `cv::Rect` intersection (`operator &`): intersect the two boxes and replace
an empty intersection by the zero rectangle, exactly as in OpenCV's
`operator &=` for `Rect_`. -/
def rectInter (a b : CvRect) : CvRect :=
  let x1 := max a.x b.x
  let y1 := max a.y b.y
  let w := min (a.x + a.width) (b.x + b.width) - x1
  let h := min (a.y + a.height) (b.y + b.height) - y1
  if w ≤ 0 ∨ h ≤ 0 then ⟨0, 0, 0, 0⟩ else ⟨x1, y1, w, h⟩

/-! ## Trackbar kernel-size normalization (main.cpp 193-210) -/

/-- The numeric configuration touched by `on_trackbar`. -/
structure KernelConfig where
  blur_kernel_size : ℕ
  erode_size : ℕ
  dilate_size : ℕ
deriving DecidableEq, Repr

/-- `on_trackbar` (main.cpp lines 193-210): an even Gaussian blur kernel size is
incremented (`blur_kernel_size++`), an erode size of 0 is incremented, a dilate
size of 0 is incremented. -/
def on_trackbar (c : KernelConfig) : KernelConfig :=
  { blur_kernel_size :=
      if c.blur_kernel_size % 2 = 0 then c.blur_kernel_size + 1 else c.blur_kernel_size
    erode_size := if c.erode_size = 0 then c.erode_size + 1 else c.erode_size
    dilate_size := if c.dilate_size = 0 then c.dilate_size + 1 else c.dilate_size }

/-! ## Colour thresholding of the static pipeline (main.cpp 695-705) -/

/-- The threshold configuration (globals of main.cpp, lines 96-109). -/
structure ColorThresholds where
  hue_1_min : ℕ
  hue_1_max : ℕ
  hue_2_min : ℕ
  hue_2_max : ℕ
  saturation_min : ℕ
  saturation_max : ℕ
  value_min : ℕ
  value_max : ℕ
deriving DecidableEq, Repr

/-- `cv::inRange` on one HSV pixel: 255 when every channel lies inside its
(inclusive) bound, 0 otherwise. -/
def inRangeHSV (hmin smin vmin hmax smax vmax h s v : ℕ) : ℕ :=
  if hmin ≤ h ∧ h ≤ hmax ∧ smin ≤ s ∧ s ≤ smax ∧ vmin ≤ v ∧ v ≤ vmax then 255 else 0

/-- `cv::addWeighted(a, 1.0, b, 1.0, 0.0, dst)` on 8-bit pixels: the sum
saturated at 255. -/
def addWeightedSat (a b : ℕ) : ℕ :=
  min (a + b) 255

/-- One pixel of the combined threshold mask of the static pipeline
(main.cpp lines 695-705): `inRange` on the first hue interval, `inRange` on the
second hue interval, combined by `addWeighted` with unit weights. -/
def combined_threshold (t : ColorThresholds) (h s v : ℕ) : ℕ :=
  addWeightedSat
    (inRangeHSV t.hue_1_min t.saturation_min t.value_min
      t.hue_1_max t.saturation_max t.value_max h s v)
    (inRangeHSV t.hue_2_min t.saturation_min t.value_min
      t.hue_2_max t.saturation_max t.value_max h s v)

/-! ## CamShift search-window reinflation (main.cpp 969-975) -/

/-- The half-extent used to reinflate a collapsed search window:
`(MIN(cols, rows) + 5) / 6` in C `int` arithmetic (main.cpp line 973). -/
def reinflate_halfextent (rows cols : ℤ) : ℤ :=
  Int.tdiv (min cols rows + 5) 6

/-- Main.cpp lines 969-975: when the CamShift-refined search window
`object_of_interest` has area at most 1, it is replaced by
`Rect(x - s, y - s, x + s, y + s) & Rect(0, 0, cols, rows)` where
`s = (MIN(cols, rows) + 5) / 6`.  Note that the third and fourth arguments of
the `Rect` constructor are its *width* and *height*. -/
def reinflate (rows cols : ℤ) (w : CvRect) : CvRect :=
  if w.area ≤ 1 then
    let s := reinflate_halfextent rows cols
    rectInter ⟨w.x - s, w.y - s, w.x + s, w.y + s⟩ ⟨0, 0, cols, rows⟩
  else w

/-! ## Blob selection (main.cpp 796-840) -/

/-- One connected foreground region, abstracted by the data the loop in
main.cpp lines 808-837 reads: its image moments `m00` (area), `m10`, `m01`,
and the number of points of its outer boundary (`contours[i].size()`). -/
structure Region where
  m00 : ℚ
  m10 : ℚ
  m01 : ℚ
  boundary : ℕ
deriving DecidableEq, Repr

/-- The area filter of main.cpp line 817:
`area > MIN_BLOB_AREA && area < MAX_BLOB_AREA`, strict on both ends. -/
def Qual (minA maxA : ℚ) (r : Region) : Prop :=
  minA < r.m00 ∧ r.m00 < maxA

instance (minA maxA : ℚ) (r : Region) : Decidable (Qual minA maxA r) := by
  unfold Qual
  infer_instance

/-- The mutable state of the selection loop: `object_found`, `max_area`,
`max_area_object_x`, `max_area_object_y`, `max_area_contour_index`
(main.cpp lines 796-805). -/
structure SelState where
  object_found : Bool
  max_area : ℚ
  max_x : ℤ
  max_y : ℤ
  max_idx : ℤ
deriving DecidableEq, Repr

/-- Initial loop state: `object_found = false`, `max_area = 0`,
coordinates 0, `max_area_contour_index = -1`. -/
def selInit : SelState :=
  ⟨false, 0, 0, 0, -1⟩

/-- One iteration of the loop of main.cpp lines 808-837 on the region with
traversal index `ir.1`: if the area passes the strict bounds, the centroid is
computed (`x = m10 / area`, `y = m01 / area`, truncated to `int`),
`object_found` is set, and when the area strictly exceeds the running maximum
the best-so-far fields are replaced. -/
def blobStep (minA maxA : ℚ) (s : SelState) (ir : ℕ × Region) : SelState :=
  let r := ir.2
  let area := r.m00
  if Qual minA maxA r then
    let cx := ratTrunc (r.m10 / area)
    let cy := ratTrunc (r.m01 / area)
    let s1 : SelState := { s with object_found := true }
    if s1.max_area < area then
      { s1 with max_area := area, max_x := cx, max_y := cy, max_idx := (ir.1 : ℤ) }
    else s1
  else s

/-- The selection loop over the top-level contours in traversal order
(`for (int i = 0; i >= 0; i = hierarchy[i][0])`), carrying the traversal
index. -/
def selectLoop (minA maxA : ℚ) : ℕ → SelState → List Region → SelState
  | _, s, [] => s
  | i, s, r :: rest => selectLoop minA maxA (i + 1) (blobStep minA maxA s (i, r)) rest

/-- Blob selection over the traversal-ordered list of top-level regions
(main.cpp lines 796-840). -/
def selectBlob (minA maxA : ℚ) (regions : List Region) : SelState :=
  selectLoop minA maxA 0 selInit regions

/-! ## Pose estimation (main.cpp 358-423) -/

/-- The square of `DBL_MAX`, the sentinel initial value of `shortest_axis`
(main.cpp lines 367 and 401).  Edge lengths are compared through their squares
(for nonnegative reals `a < b` iff `a² < b²`), so the sentinel appears
squared. -/
def DBL_MAX_SQ : ℚ :=
  (2 ^ 1024 - 2 ^ 971) ^ 2

/-- The squared length of edge `j` of the rectangle: the squared norm of
`rectangle_points[j] - rectangle_points[(j + 1) % 4]` (main.cpp lines 374
and 408). -/
def edgeSq (pts : Fin 4 → ℚ × ℚ) (j : Fin 4) : ℚ :=
  ((pts j).1 - (pts (j + 1)).1) ^ 2 + ((pts j).2 - (pts (j + 1)).2) ^ 2

/-- One iteration of the shortest-side loop (main.cpp lines 371-383 and
405-414), on squared lengths: if the edge is strictly shorter than the
shortest seen so far, remember its length and index.  The index component is
`none` while `shortest_axis_index` is still unassigned. -/
def shortestStep (pts : Fin 4 → ℚ × ℚ) (st : ℚ × Option (Fin 4)) (j : Fin 4) :
    ℚ × Option (Fin 4) :=
  if edgeSq pts j < st.1 then (edgeSq pts j, some j) else st

/-- The full shortest-side search of `draw_principal_axis` and `get_size`,
starting from the `DBL_MAX` sentinel and an unassigned index. -/
def shortestScan (pts : Fin 4 → ℚ × ℚ) : ℚ × Option (Fin 4) :=
  List.foldl (shortestStep pts) (DBL_MAX_SQ, none) [0, 1, 2, 3]

/-- The midpoint of two corner points as stored into an integer `cv::Point`:
`(a + b) * 0.5` computed exactly, then each coordinate rounded half to even
(main.cpp lines 386-387 and 417-418). -/
def midPointInt (a b : ℚ × ℚ) : ℤ × ℤ :=
  (roundHE ((a.1 + b.1) / 2), roundHE ((a.2 + b.2) / 2))

/-- The two endpoints of the drawn principal axis (`draw_principal_axis`,
main.cpp lines 358-392): the rounded midpoint of the shortest edge `k`
(corners `k` and `k+1 mod 4`) and the rounded midpoint of the opposite edge
(corners `k+2 mod 4` and `k+3 mod 4`).  `none` when the shortest-side index
was never assigned (the uninitialized-read case). -/
def axisEndpoints (pts : Fin 4 → ℚ × ℚ) : Option ((ℤ × ℤ) × (ℤ × ℤ)) :=
  (shortestScan pts).2.map fun k =>
    (midPointInt (pts k) (pts (k + 1)), midPointInt (pts (k + 2)) (pts (k + 3)))

/-- The square of the value returned by `get_size` (main.cpp lines 394-423).
The C code returns `sqrt((m1.x - m2.x)² + (m1.y - m2.y)²) / 2` on the integer
midpoints; its square is exactly the squared distance divided by 4. -/
def get_size_sq (pts : Fin 4 → ℚ × ℚ) : Option ℚ :=
  (shortestScan pts).2.map fun k =>
    let m1 := midPointInt (pts k) (pts (k + 1))
    let m2 := midPointInt (pts (k + 2)) (pts (k + 3))
    (((m1.1 - m2.1 : ℤ) : ℚ) ^ 2 + ((m1.2 - m2.2 : ℤ) : ℚ) ^ 2) / 4

/-- The size described by the specification's words: half the Euclidean
distance between the *exact* midpoints of the shortest edge and of the edge
opposite it, stated through its square.  This definition follows the spec
sentence, to be compared with `get_size_sq`, which follows the code. -/
def claimed_size_sq (pts : Fin 4 → ℚ × ℚ) : Option ℚ :=
  (shortestScan pts).2.map fun k =>
    let m1 := (((pts k).1 + (pts (k + 1)).1) / 2, ((pts k).2 + (pts (k + 1)).2) / 2)
    let m2 := (((pts (k + 2)).1 + (pts (k + 3)).1) / 2,
               ((pts (k + 2)).2 + (pts (k + 3)).2) / 2)
    ((m1.1 - m2.1) ^ 2 + (m1.2 - m2.2) ^ 2) / 4

/-- The corner coordinates delivered by `RotatedRect::points` are finite
`float`s, hence bounded by `2^128` in absolute value. -/
def FloatFinite (pts : Fin 4 → ℚ × ℚ) : Prop :=
  ∀ i, |(pts i).1| ≤ 2 ^ 128 ∧ |(pts i).2| ≤ 2 ^ 128

/-- A concrete axis-aligned 3×1 rectangle whose short-side midpoints have
half-integer coordinates: corners (1/2, 0), (1/2, 1), (7/2, 1), (7/2, 0) in
cyclic order. -/
def exPts : Fin 4 → ℚ × ℚ
  | 0 => (1 / 2, 0)
  | 1 => (1 / 2, 1)
  | 2 => (7 / 2, 1)
  | 3 => (7 / 2, 0)

/-! ## The per-frame output of the static pipeline (main.cpp 840-910) -/

/-- The per-frame output record of the static pipeline.  `found` is the
internal `object_found` flag; `position` is the argument of the
`draw_object_position` call (the crosshair centre), `axis` the endpoints of the
drawn principal axis, `size_sq` the square of the computed object size; each is
`none` when the corresponding call never happens for the frame. -/
structure TrackResult where
  found : Bool
  position : Option (ℤ × ℤ)
  axis : Option ((ℤ × ℤ) × (ℤ × ℤ))
  size_sq : Option ℚ
deriving DecidableEq, Repr

/-- The pose-and-drawing section of main.cpp lines 840-904: after blob
selection, when an object was found and the selected contour has more than 4
points, `fitEllipse` is applied to it (modelled by the parameter `fitE`, which
yields the 4 corner points of the fitted box), the principal axis is drawn and
the size computed, and the position crosshair is drawn; with 4 or fewer
boundary points nothing is drawn at all. -/
def staticFrame (fitE : Region → Fin 4 → ℚ × ℚ) (minA maxA : ℚ)
    (regions : List Region) : TrackResult :=
  let s := selectBlob minA maxA regions
  if s.object_found then
    (regions.get? s.max_idx.toNat).elim ⟨true, none, none, none⟩ fun r =>
      if 4 < r.boundary then
        ⟨true, some (s.max_x, s.max_y), axisEndpoints (fitE r), get_size_sq (fitE r)⟩
      else ⟨true, none, none, none⟩
  else ⟨false, none, none, none⟩

/-! ## Contour extraction on a copy of the mask (main.cpp 790-793) -/

/-- Main.cpp lines 790-793 with buffers modelled as a store from buffer ids to
images: `eroded_dilated_threshold.copyTo(contours_frame)` writes a copy of the
mask into the buffer `cf`, then `findContours` (modelled by the parameter `fc`,
which returns the contours and the clobbered image, since OpenCV's
`findContours` mutates its input) reads and rewrites buffer `cf`.  The buffer
`edt` holds the eroded/dilated threshold mask. -/
def find_contours_step {α : Type} (fc : α → List (List (ℤ × ℤ)) × α)
    (edt cf : ℕ) (buffers : ℕ → α) : List (List (ℤ × ℤ)) × (ℕ → α) :=
  let buffers1 : ℕ → α := fun j => if j = cf then buffers edt else buffers j
  let r := fc (buffers1 cf)
  (r.1, fun j => if j = cf then r.2 else buffers1 j)

/-! ## The CamShift selection state machine (main.cpp 260-304 and 914-999) -/

/-- The mouse events consumed by `onMouse`: right-button press begins a
selection, mouse movement updates it, left-button release ends it. -/
inductive CamEvent where
  | rbuttondown (x y : ℤ)
  | mousemove (x y : ℤ)
  | lbuttonup (x y : ℤ)
deriving DecidableEq, Repr

/-- The global interaction state of the CamShift pipeline: `select_object`,
`track_object`, `origin`, `selection` (main.cpp lines 156-166), the `paused`
flag (line 648), and whether a histogram model has been learned
(`hist_learned` models the effect of the `calcHist`/`normalize` block of
lines 927-958). -/
structure CamState where
  select_object : Bool
  track_object : ℤ
  origin : ℤ × ℤ
  selection : CvRect
  paused : Bool
  hist_learned : Bool
deriving DecidableEq, Repr

/-- `onMouse` (main.cpp lines 260-304).  While `select_object` is set, every
event first recomputes the selection rectangle as the axis-aligned box between
`origin` and the event point, clipped to the frame; then a right-button press
records the origin and starts a zero-size selection, and a left-button release
ends the selection and, when the resulting rectangle has positive width and
height, sets `track_object = -1`. -/
def onMouse (rows cols : ℤ) (ev : CamEvent) (s : CamState) : CamState :=
  let xy : ℤ × ℤ :=
    match ev with
    | .rbuttondown x y => (x, y)
    | .mousemove x y => (x, y)
    | .lbuttonup x y => (x, y)
  let s :=
    if s.select_object then
      { s with selection :=
          (rectInter ⟨min xy.1 s.origin.1, min xy.2 s.origin.2,
            |xy.1 - s.origin.1|, |xy.2 - s.origin.2|⟩ ⟨0, 0, cols, rows⟩) }
    else s
  match ev with
  | .rbuttondown x y =>
    { s with origin := (x, y), selection := ⟨x, y, 0, 0⟩, select_object := true }
  | .mousemove _ _ => s
  | .lbuttonup _ _ =>
    let s1 := { s with select_object := false }
    if 0 < s1.selection.width ∧ 0 < s1.selection.height then
      { s1 with track_object := -1 }
    else s1

/-- The control flow of the CamShift branch of the frame loop (main.cpp lines
914-999) for one processed frame, together with the search window
`object_of_interest`.  When not paused and `track_object ≠ 0`: if
`track_object < 0` the histogram is learned, the search window is set to the
selection and `track_object` becomes 1; then CamShift refines the window
(modelled by the parameter `cs`) and a collapsed window is reinflated.  When
paused, a pending selection (`track_object < 0`) only clears the pause. -/
def processFrame (cs : CvRect → CvRect) (rows cols : ℤ) (s : CamState)
    (oi : CvRect) : CamState × CvRect :=
  if s.paused = false then
    if s.track_object ≠ 0 then
      let p : CamState × CvRect :=
        if s.track_object < 0 then
          ({ s with hist_learned := true, track_object := 1 }, s.selection)
        else (s, oi)
      (p.1, reinflate rows cols (cs p.2))
    else (s, oi)
  else if s.track_object < 0 then ({ s with paused := false }, oi) else (s, oi)

/-- A sequence of update-selection (mouse-move) events fed to `onMouse`. -/
def movesFold (rows cols : ℤ) (moves : List (ℤ × ℤ)) (s : CamState) : CamState :=
  moves.foldl (fun t m => onMouse rows cols (.mousemove m.1 m.2) t) s

/-- A begin-selection / update-selection / end-selection event sequence fed to
`onMouse`: a right-button press at `(x0, y0)`, a list of mouse moves, and a
left-button release at `(x1, y1)`. -/
def selSeq (rows cols : ℤ) (x0 y0 : ℤ) (moves : List (ℤ × ℤ)) (x1 y1 : ℤ)
    (s : CamState) : CamState :=
  onMouse rows cols (.lbuttonup x1 y1)
    (movesFold rows cols moves (onMouse rows cols (.rbuttondown x0 y0) s))

/-- The Idle state of the tracker: no selection in progress, no tracking
requested, not paused, no model learned. -/
def IdleState (s : CamState) : Prop :=
  s.select_object = false ∧ s.track_object = 0 ∧ s.paused = false ∧
    s.hist_learned = false

instance (s : CamState) : Decidable (IdleState s) := by
  unfold IdleState
  infer_instance

/-! ## Theorems -/

/-- Claim C7: configuration normalization auto-corrects instead of rejecting:
whenever `on_trackbar` runs, an even blur kernel size is incremented to the
next odd value, an erode size of 0 becomes 1, a dilate size of 0 becomes 1,
and already-odd blur sizes and nonzero erode/dilate sizes pass through
unchanged. -/
theorem on_trackbar_normalization (c : KernelConfig) :
    (c.blur_kernel_size % 2 = 0 →
        (on_trackbar c).blur_kernel_size = c.blur_kernel_size + 1) ∧
    (c.blur_kernel_size % 2 = 1 →
        (on_trackbar c).blur_kernel_size = c.blur_kernel_size) ∧
    (c.erode_size = 0 → (on_trackbar c).erode_size = 1) ∧
    (c.erode_size ≠ 0 → (on_trackbar c).erode_size = c.erode_size) ∧
    (c.dilate_size = 0 → (on_trackbar c).dilate_size = 1) ∧
    (c.dilate_size ≠ 0 → (on_trackbar c).dilate_size = c.dilate_size) := by
  unfold on_trackbar
  refine ⟨fun h => ?_, fun h => ?_, fun h => ?_, fun h => ?_, fun h => ?_, fun h => ?_⟩ <;>
    simp [h]

/-- Witness for C7 at concrete inputs: blur 20 → 21, erode 0 → 1,
dilate 0 → 1, and the already-valid values 21, 5, 7 pass through. -/
theorem on_trackbar_normalization_witness :
    (on_trackbar ⟨20, 0, 0⟩).blur_kernel_size = 21 ∧
    (on_trackbar ⟨20, 0, 0⟩).erode_size = 1 ∧
    (on_trackbar ⟨20, 0, 0⟩).dilate_size = 1 ∧
    (on_trackbar ⟨21, 5, 7⟩).blur_kernel_size = 21 ∧
    (on_trackbar ⟨21, 5, 7⟩).erode_size = 5 ∧
    (on_trackbar ⟨21, 5, 7⟩).dilate_size = 7 :=
  ⟨(on_trackbar_normalization ⟨20, 0, 0⟩).1 (by decide),
   (on_trackbar_normalization ⟨20, 0, 0⟩).2.2.1 (by decide),
   (on_trackbar_normalization ⟨20, 0, 0⟩).2.2.2.2.1 (by decide),
   (on_trackbar_normalization ⟨21, 5, 7⟩).2.1 (by decide),
   (on_trackbar_normalization ⟨21, 5, 7⟩).2.2.2.1 (by decide),
   (on_trackbar_normalization ⟨21, 5, 7⟩).2.2.2.2.2 (by decide)⟩

/-- Claim C8: a pixel of the combined mask of the static pipeline is
foreground iff its hue lies in the first or the second hue interval, and its
saturation lies in the saturation interval, and its value lies in the value
interval; the two per-interval masks are combined by saturating addition,
which acts as union. -/
theorem combined_threshold_spec (t : ColorThresholds) (h s v : ℕ) :
    combined_threshold t h s v ≠ 0 ↔
      ((t.hue_1_min ≤ h ∧ h ≤ t.hue_1_max) ∨ (t.hue_2_min ≤ h ∧ h ≤ t.hue_2_max)) ∧
      (t.saturation_min ≤ s ∧ s ≤ t.saturation_max) ∧
      (t.value_min ≤ v ∧ v ≤ t.value_max) := by
  unfold combined_threshold inRangeHSV addWeightedSat
  split_ifs <;> simp_all
  tauto

/-- `ratFloor` agrees with the mathematical floor on ℚ. -/
theorem ratFloor_eq (q : ℚ) : ratFloor q = ⌊q⌋ := by
  rw [Rat.floor_def]
  rfl

/-- `roundHE` expressed through the mathematical floor, for evaluation. -/
theorem roundHE_eq (q : ℚ) :
    roundHE q =
      if q - (⌊q⌋ : ℚ) = 1 / 2 then (if 2 ∣ ⌊q⌋ then ⌊q⌋ else ⌊q⌋ + 1)
      else ⌊q + 1 / 2⌋ := by
  unfold roundHE
  rw [ratFloor_eq, ratFloor_eq]

/-- `ratTrunc` of an integer is that integer. -/
theorem ratTrunc_intCast (n : ℤ) : ratTrunc (n : ℚ) = n := by
  unfold ratTrunc
  rw [Rat.num_intCast, Rat.den_intCast]
  exact Int.tdiv_one n

/-- A region failing the area filter leaves the selection state unchanged. -/
theorem blobStep_not_qual (minA maxA : ℚ) (s : SelState) (i : ℕ) (r : Region)
    (h : ¬ Qual minA maxA r) : blobStep minA maxA s (i, r) = s := by
  simp [blobStep, h]

/-- A qualifying region whose area strictly exceeds the running maximum
replaces the best-so-far fields. -/
theorem blobStep_new_max (minA maxA : ℚ) (s : SelState) (i : ℕ) (r : Region)
    (hq : Qual minA maxA r) (hlt : s.max_area < r.m00) :
    blobStep minA maxA s (i, r) =
      ⟨true, r.m00, ratTrunc (r.m10 / r.m00), ratTrunc (r.m01 / r.m00), (i : ℤ)⟩ := by
  simp [blobStep, hq, hlt]

/-- A qualifying region whose area does not exceed the running maximum only
sets `object_found`. -/
theorem blobStep_old_max (minA maxA : ℚ) (s : SelState) (i : ℕ) (r : Region)
    (hq : Qual minA maxA r) (hge : r.m00 ≤ s.max_area) :
    blobStep minA maxA s (i, r) = { s with object_found := true } := by
  simp [blobStep, hq, not_lt.mpr hge]

/-- Unfolding of `selectLoop` on a nonempty list. -/
theorem selectLoop_cons (minA maxA : ℚ) (i : ℕ) (s : SelState) (a : Region)
    (rest : List Region) :
    selectLoop minA maxA i s (a :: rest) =
      selectLoop minA maxA (i + 1) (blobStep minA maxA s (i, a)) rest := rfl

/-- Full characterization of the selection loop, for any starting index and
state.  If no region in the list both qualifies and strictly exceeds the
running maximum area, the loop only ors `object_found` with "some region
qualifies"; otherwise the final state is the first region of the list that
attains the strict maximum area among qualifying regions exceeding the
running maximum, with its truncated centroid and traversal index. -/
theorem selectLoop_spec (minA maxA : ℚ) :
    ∀ (l : List Region) (i : ℕ) (s : SelState),
      (¬ (∃ r ∈ l, Qual minA maxA r ∧ s.max_area < r.m00) →
        selectLoop minA maxA i s l =
          ⟨s.object_found || l.any (fun r => decide (Qual minA maxA r)),
            s.max_area, s.max_x, s.max_y, s.max_idx⟩) ∧
      ((∃ r ∈ l, Qual minA maxA r ∧ s.max_area < r.m00) →
        ∃ pre r suf, l = pre ++ r :: suf ∧ Qual minA maxA r ∧
          s.max_area < r.m00 ∧
          (∀ q ∈ pre, Qual minA maxA q → q.m00 < r.m00) ∧
          (∀ q ∈ l, Qual minA maxA q → q.m00 ≤ r.m00) ∧
          selectLoop minA maxA i s l =
            ⟨true, r.m00, ratTrunc (r.m10 / r.m00), ratTrunc (r.m01 / r.m00),
              ((i + pre.length : ℕ) : ℤ)⟩) := by
  intro l
  induction l with
  | nil =>
    intro i s
    constructor
    · intro _
      cases s
      simp [selectLoop]
    · rintro ⟨r, hr, -⟩
      exact absurd hr (List.not_mem_nil r)
  | cons a rest ih =>
    intro i s
    by_cases hqa : Qual minA maxA a
    · by_cases hex : s.max_area < a.m00
      · -- the head qualifies and strictly exceeds the running maximum
        have hstep := blobStep_new_max minA maxA s i a hqa hex
        obtain ⟨ih1, ih2⟩ := ih (i + 1)
          ⟨true, a.m00, ratTrunc (a.m10 / a.m00), ratTrunc (a.m01 / a.m00), (i : ℤ)⟩
        dsimp only at ih1 ih2
        constructor
        · intro hno
          exact absurd ⟨a, List.mem_cons_self a rest, hqa, hex⟩ hno
        · intro _
          by_cases hex2 : ∃ r ∈ rest, Qual minA maxA r ∧ a.m00 < r.m00
          · obtain ⟨pre', r, suf', hdec, hqr, hlt, hpre, hall, hloop⟩ := ih2 hex2
            refine ⟨a :: pre', r, suf', ?_, hqr, lt_trans hex hlt, ?_, ?_, ?_⟩
            · rw [hdec]
              rfl
            · intro q hq hqq
              rcases List.mem_cons.mp hq with h | h
              · rw [h]
                exact hlt
              · exact hpre q h hqq
            · intro q hq hqq
              rcases List.mem_cons.mp hq with h | h
              · rw [h]
                exact le_of_lt hlt
              · exact hall q h hqq
            · rw [selectLoop_cons, hstep, hloop]
              have hlen : i + 1 + pre'.length = i + (a :: pre').length := by
                rw [List.length_cons]
                omega
              rw [hlen]
          · have hloop := ih1 hex2
            refine ⟨[], a, rest, rfl, hqa, hex, ?_, ?_, ?_⟩
            · intro q hq
              exact absurd hq (List.not_mem_nil q)
            · intro q hq hqq
              rcases List.mem_cons.mp hq with h | h
              · rw [h]
              · by_contra hcon
                push_neg at hcon
                exact hex2 ⟨q, h, hqq, hcon⟩
            · rw [selectLoop_cons, hstep, hloop]
              simp
      · -- the head qualifies but does not exceed the running maximum
        have hstep := blobStep_old_max minA maxA s i a hqa (not_lt.mp hex)
        obtain ⟨ih1, ih2⟩ := ih (i + 1)
          ⟨true, s.max_area, s.max_x, s.max_y, s.max_idx⟩
        dsimp only at ih1 ih2
        have hle : a.m00 ≤ s.max_area := not_lt.mp hex
        constructor
        · intro hno
          have hno' : ¬ ∃ r ∈ rest, Qual minA maxA r ∧ s.max_area < r.m00 := by
            rintro ⟨r, hr, h1, h2⟩
            exact hno ⟨r, List.mem_cons_of_mem a hr, h1, h2⟩
          rw [selectLoop_cons, hstep, ih1 hno']
          simp [List.any_cons, hqa]
        · rintro ⟨r, hm, hqr, hlt⟩
          have hmem : r ∈ rest := by
            rcases List.mem_cons.mp hm with h | h
            · rw [h] at hlt
              exact absurd hlt (not_lt.mpr hle)
            · exact h
          obtain ⟨pre', r', suf', hdec, hqr', hlt', hpre, hall, hloop⟩ :=
            ih2 ⟨r, hmem, hqr, hlt⟩
          refine ⟨a :: pre', r', suf', ?_, hqr', hlt', ?_, ?_, ?_⟩
          · rw [hdec]
            rfl
          · intro q hq hqq
            rcases List.mem_cons.mp hq with h | h
            · rw [h]
              exact lt_of_le_of_lt hle hlt'
            · exact hpre q h hqq
          · intro q hq hqq
            rcases List.mem_cons.mp hq with h | h
            · rw [h]
              exact le_of_lt (lt_of_le_of_lt hle hlt')
            · exact hall q h hqq
          · rw [selectLoop_cons, hstep, hloop]
            have hlen : i + 1 + pre'.length = i + (a :: pre').length := by
              rw [List.length_cons]
              omega
            rw [hlen]
    · -- the head does not qualify
      have hstep := blobStep_not_qual minA maxA s i a hqa
      obtain ⟨ih1, ih2⟩ := ih (i + 1) s
      constructor
      · intro hno
        have hno' : ¬ ∃ r ∈ rest, Qual minA maxA r ∧ s.max_area < r.m00 := by
          rintro ⟨r, hr, h1, h2⟩
          exact hno ⟨r, List.mem_cons_of_mem a hr, h1, h2⟩
        rw [selectLoop_cons, hstep, ih1 hno']
        simp [List.any_cons, hqa]
      · rintro ⟨r, hm, hqr, hlt⟩
        have hmem : r ∈ rest := by
          rcases List.mem_cons.mp hm with h | h
          · rw [h] at hqr
            exact absurd hqr hqa
          · exact h
        obtain ⟨pre', r', suf', hdec, hqr', hlt', hpre, hall, hloop⟩ :=
          ih2 ⟨r, hmem, hqr, hlt⟩
        refine ⟨a :: pre', r', suf', ?_, hqr', hlt', ?_, ?_, ?_⟩
        · rw [hdec]
          rfl
        · intro q hq hqq
          rcases List.mem_cons.mp hq with h | h
          · rw [h] at hqq
            exact absurd hqq hqa
          · exact hpre q h hqq
        · intro q hq hqq
          rcases List.mem_cons.mp hq with h | h
          · rw [h] at hqq
            exact absurd hqq hqa
          · exact hall q h hqq
        · rw [selectLoop_cons, hstep, hloop]
          have hlen : i + 1 + pre'.length = i + (a :: pre').length := by
            rw [List.length_cons]
            omega
          rw [hlen]

/-- Claim C3: among all regions whose area lies strictly between `min_area`
and `max_area`, blob selection reports the truncated centroid and traversal
index of the region with strictly maximum area; when two qualifying regions
tie, the first one in traversal order is selected (every qualifying region
strictly before the winner has strictly smaller area); when no region
qualifies, `object_found` is false and the frame reports no position. -/
theorem selectBlob_max_area (minA maxA : ℚ) (h0 : 0 ≤ minA)
    (regions : List Region) (fitE : Region → Fin 4 → ℚ × ℚ) :
    ((∀ r ∈ regions, ¬ Qual minA maxA r) →
      selectBlob minA maxA regions = selInit ∧
      staticFrame fitE minA maxA regions = ⟨false, none, none, none⟩) ∧
    ((∃ r ∈ regions, Qual minA maxA r) →
      ∃ pre r suf, regions = pre ++ r :: suf ∧ Qual minA maxA r ∧
        (∀ q ∈ pre, Qual minA maxA q → q.m00 < r.m00) ∧
        (∀ q ∈ regions, Qual minA maxA q → q.m00 ≤ r.m00) ∧
        selectBlob minA maxA regions =
          ⟨true, r.m00, ratTrunc (r.m10 / r.m00), ratTrunc (r.m01 / r.m00),
            (pre.length : ℤ)⟩) := by
  obtain ⟨sp1, sp2⟩ := selectLoop_spec minA maxA regions 0 selInit
  constructor
  · intro hnone
    have hno : ¬ ∃ r ∈ regions, Qual minA maxA r ∧ selInit.max_area < r.m00 := by
      rintro ⟨r, hr, h1, -⟩
      exact hnone r hr h1
    have hany : regions.any (fun r => decide (Qual minA maxA r)) = false := by
      rw [List.any_eq_false]
      intro r hr
      simpa using hnone r hr
    have hsel : selectBlob minA maxA regions = selInit := by
      unfold selectBlob
      rw [sp1 hno, hany]
      rfl
    refine ⟨hsel, ?_⟩
    unfold staticFrame
    rw [hsel]
    rfl
  · rintro ⟨r, hr, hq⟩
    have hpos : selInit.max_area < r.m00 := lt_of_le_of_lt h0 hq.1
    obtain ⟨pre, r', suf, hdec, hq', hlt', hpre, hall, hloop⟩ :=
      sp2 ⟨r, hr, hq, hpos⟩
    refine ⟨pre, r', suf, hdec, hq', hpre, hall, ?_⟩
    unfold selectBlob
    rw [hloop]
    norm_num

/-- Witness for C3 on a concrete mask: three qualifying regions of areas 5, 7
and 7; the selected region is the first of the two area-7 regions (traversal
index 1), with its truncated centroid. -/
theorem selectBlob_max_area_witness :
    ∃ pre r suf,
      ([⟨5, 10, 15, 8⟩, ⟨7, 14, 21, 9⟩, ⟨7, 0, 0, 3⟩] : List Region) =
        pre ++ r :: suf ∧ Qual 1 100 r ∧
      (∀ q ∈ pre, Qual 1 100 q → q.m00 < r.m00) ∧
      (∀ q ∈ ([⟨5, 10, 15, 8⟩, ⟨7, 14, 21, 9⟩, ⟨7, 0, 0, 3⟩] : List Region),
        Qual 1 100 q → q.m00 ≤ r.m00) ∧
      selectBlob 1 100 [⟨5, 10, 15, 8⟩, ⟨7, 14, 21, 9⟩, ⟨7, 0, 0, 3⟩] =
        ⟨true, r.m00, ratTrunc (r.m10 / r.m00), ratTrunc (r.m01 / r.m00),
          (pre.length : ℤ)⟩ :=
  (selectBlob_max_area 1 100 (by norm_num)
      [⟨5, 10, 15, 8⟩, ⟨7, 14, 21, 9⟩, ⟨7, 0, 0, 3⟩] (fun _ _ => (0, 0))).2
    ⟨⟨5, 10, 15, 8⟩, by simp, by constructor <;> norm_num⟩

/-- Claim C2: evaluation of the search-window reinflation of main.cpp lines
969-975 on a collapsed window at (300, 200) in a 640×480 back-projection.  The
half-extent `(MIN(cols, rows) + 5) / 6` is 80 as claimed, but the code passes
`x + 80` and `y + 80` as the *width* and *height* arguments of the `Rect`
constructor, so the result is the 380×280 window `Rect(220, 120, 380, 280)` —
not the 160×160 square centred at the last known location that the claim
describes (`Rect(220, 120, 160, 160)` after clipping). -/
theorem reinflate_not_centered_square :
    reinflate_halfextent 480 640 = 80 ∧
    reinflate 480 640 ⟨300, 200, 1, 1⟩ = ⟨220, 120, 380, 280⟩ ∧
    reinflate 480 640 ⟨300, 200, 1, 1⟩ ≠
      rectInter ⟨300 - 80, 200 - 80, 160, 160⟩ ⟨0, 0, 640, 480⟩ := by
  decide

/-- Claim C4: the blob-area filter is strictly exclusive on both ends: a
region is kept (sets `object_found`) iff `min_area < area < max_area`; a
region of area exactly `min_area` or exactly `max_area` leaves the selection
state untouched; a region of area `min_area + 1` is included whenever
`min_area + 1 < max_area`. -/
theorem area_filter_exclusive (minA maxA : ℚ) (s : SelState) (i : ℕ) (r : Region) :
    ((blobStep minA maxA s (i, r)).object_found = true ↔
      s.object_found = true ∨ (minA < r.m00 ∧ r.m00 < maxA)) ∧
    (r.m00 = minA → blobStep minA maxA s (i, r) = s) ∧
    (r.m00 = maxA → blobStep minA maxA s (i, r) = s) ∧
    (r.m00 = minA + 1 → minA + 1 < maxA →
      (blobStep minA maxA s (i, r)).object_found = true) := by
  refine ⟨?_, fun h => ?_, fun h => ?_, fun h hlt => ?_⟩
  · unfold blobStep Qual
    dsimp only
    split_ifs <;> simp_all
  · refine blobStep_not_qual minA maxA s i r ?_
    unfold Qual
    rw [h]
    simp
  · refine blobStep_not_qual minA maxA s i r ?_
    unfold Qual
    rw [h]
    simp
  · have hq : Qual minA maxA r := by
      unfold Qual
      rw [h]
      constructor
      · linarith
      · exact hlt
    unfold blobStep
    simp only [hq, if_true]
    split_ifs <;> rfl

/-- Witness for C4 at concrete inputs: with bounds (1, 100), a region of area
exactly 1 is dropped (state unchanged) and a region of area 2 is kept. -/
theorem area_filter_exclusive_witness :
    blobStep 1 100 selInit (0, ⟨1, 3, 4, 5⟩) = selInit ∧
    (blobStep 1 100 selInit (0, ⟨2, 3, 4, 5⟩)).object_found = true :=
  ⟨(area_filter_exclusive 1 100 selInit 0 ⟨1, 3, 4, 5⟩).2.1 rfl,
   (area_filter_exclusive 1 100 selInit 0 ⟨2, 3, 4, 5⟩).2.2.2 (by norm_num) (by norm_num)⟩

/-- Claim C9: blob selection does not mutate the mask it is given: contour
extraction operates on a copy (`contours_frame`) of the eroded/dilated
threshold image, so the mask buffer `edt` is identical before and after, and
the contours are those of the mask's contents. -/
theorem find_contours_preserves_mask (α : Type) (fc : α → List (List (ℤ × ℤ)) × α)
    (edt cf : ℕ) (hne : edt ≠ cf) (buffers : ℕ → α) :
    (find_contours_step fc edt cf buffers).2 edt = buffers edt ∧
    (find_contours_step fc edt cf buffers).1 = (fc (buffers edt)).1 := by
  unfold find_contours_step
  simp [hne]

/-- Witness for C9 at a concrete store: mask buffer 0 holds 7, the contour
extractor clobbers its input to 99; after the step buffer 0 still holds 7. -/
theorem find_contours_preserves_mask_witness :
    (find_contours_step (fun _ => ([[(0, 0)]], 99)) 0 1 (fun _ => (7 : ℕ))).2 0 = 7 ∧
    (find_contours_step (fun _ => ([[(0, 0)]], 99)) 0 1 (fun _ => (7 : ℕ))).1 =
      [[(0, 0)]] :=
  find_contours_preserves_mask ℕ (fun _ => ([[(0, 0)]], 99)) 0 1 (by decide)
    (fun _ => (7 : ℕ))

/-- Any edge of a rectangle with finite float corners is strictly shorter
than the `DBL_MAX` sentinel (compared through squares). -/
theorem edgeSq_lt_dblmax (pts : Fin 4 → ℚ × ℚ) (h : FloatFinite pts) (j : Fin 4) :
    edgeSq pts j < DBL_MAX_SQ := by
  obtain ⟨h1, h2⟩ := h j
  obtain ⟨h3, h4⟩ := h (j + 1)
  rw [abs_le] at h1 h2 h3 h4
  have hx : ((pts j).1 - (pts (j + 1)).1) ^ 2 ≤ ((2 : ℚ) ^ 129) ^ 2 :=
    sq_le_sq' (by linarith [h1.1, h1.2, h3.1, h3.2])
      (by linarith [h1.1, h1.2, h3.1, h3.2])
  have hy : ((pts j).2 - (pts (j + 1)).2) ^ 2 ≤ ((2 : ℚ) ^ 129) ^ 2 :=
    sq_le_sq' (by linarith [h2.1, h2.2, h4.1, h4.2])
      (by linarith [h2.1, h2.2, h4.1, h4.2])
  have hbig : ((2 : ℚ) ^ 129) ^ 2 + ((2 : ℚ) ^ 129) ^ 2 < (2 ^ 1024 - 2 ^ 971) ^ 2 := by
    norm_num
  unfold edgeSq DBL_MAX_SQ
  linarith

/-- As soon as one edge beats the sentinel, the shortest-side index is
assigned. -/
theorem shortestScan_some (pts : Fin 4 → ℚ × ℚ)
    (h0 : edgeSq pts 0 < DBL_MAX_SQ) :
    ((shortestScan pts).2).isSome = true := by
  unfold shortestScan shortestStep
  simp only [List.foldl_cons, List.foldl_nil]
  dsimp only
  rw [if_pos h0]
  split_ifs <;> rfl

/-- The index delivered by the shortest-side search points at an edge of
(weakly) minimal squared length. -/
theorem shortestScan_min (pts : Fin 4 → ℚ × ℚ) (k : Fin 4)
    (hk : (shortestScan pts).2 = some k) :
    ∀ j : Fin 4, edgeSq pts k ≤ edgeSq pts j := by
  have hall := (by decide : ∀ m : Fin 4, m = 0 ∨ m = 1 ∨ m = 2 ∨ m = 3)
  unfold shortestScan shortestStep at hk
  simp only [List.foldl_cons, List.foldl_nil] at hk
  dsimp only at hk
  split_ifs at hk <;>
    simp only [Option.some.injEq] at hk <;>
    (try subst hk) <;>
    intro j <;>
    rcases hall j with hj | hj | hj | hj <;>
    rw [hj] <;>
    linarith

/-- Claim C10: for corner points with finite float coordinates, the
shortest-edge loop of `get_size` and `draw_principal_axis` always assigns
`shortest_axis_index` before it is read (the first edge is already strictly
below the `DBL_MAX` sentinel), so the midpoint computations never see an
unassigned index. -/
theorem shortest_axis_index_assigned (pts : Fin 4 → ℚ × ℚ)
    (h : FloatFinite pts) :
    ((shortestScan pts).2).isSome = true ∧ (get_size_sq pts).isSome = true ∧
    (axisEndpoints pts).isSome = true := by
  have hs := shortestScan_some pts (edgeSq_lt_dblmax pts h 0)
  obtain ⟨k, hk⟩ := Option.isSome_iff_exists.mp hs
  refine ⟨hs, ?_, ?_⟩
  · unfold get_size_sq
    rw [hk]
    rfl
  · unfold axisEndpoints
    rw [hk]
    rfl

/-- The concrete rectangle `exPts` satisfies the float bound. -/
theorem exPts_bound : FloatFinite exPts := by
  intro i
  rcases (by decide : ∀ m : Fin 4, m = 0 ∨ m = 1 ∨ m = 2 ∨ m = 3) i
    with h | h | h | h <;>
    rw [h] <;> constructor <;> norm_num [exPts, abs_le]

/-- Witness for C10 at the concrete rectangle `exPts`. -/
theorem shortest_axis_index_assigned_witness :
    ((shortestScan exPts).2).isSome = true ∧ (get_size_sq exPts).isSome = true ∧
    (axisEndpoints exPts).isSome = true :=
  shortest_axis_index_assigned exPts exPts_bound

/-- The four squared edge lengths of the concrete rectangle `exPts`. -/
theorem edgeSq_exPts :
    edgeSq exPts 0 = 1 ∧ edgeSq exPts 1 = 9 ∧ edgeSq exPts 2 = 1 ∧
    edgeSq exPts 3 = 9 := by
  refine ⟨?_, ?_, ?_, ?_⟩ <;>
    · unfold edgeSq
      norm_num [exPts, (show ((0 : Fin 4) + 1) = 1 from rfl),
        (show ((1 : Fin 4) + 1) = 2 from rfl), (show ((2 : Fin 4) + 1) = 3 from rfl),
        (show ((3 : Fin 4) + 1) = 0 from rfl)]

/-- The shortest-side search on `exPts` selects edge 0, of squared length 1. -/
theorem shortestScan_exPts : shortestScan exPts = (1, some 0) := by
  obtain ⟨e0, e1, e2, e3⟩ := edgeSq_exPts
  unfold shortestScan
  simp only [List.foldl_cons, List.foldl_nil]
  unfold shortestStep
  rw [e0, e1, e2, e3]
  norm_num [DBL_MAX_SQ]

/-- The rounded midpoint of the shortest edge of `exPts`: the exact midpoint
(1/2, 1/2) is stored into an integer `Point` as (0, 0). -/
theorem midPointInt_exPts_1 : midPointInt (exPts 0) (exPts 1) = (0, 0) := by
  unfold midPointInt
  norm_num [exPts, roundHE_eq]

/-- The rounded midpoint of the opposite edge of `exPts`: the exact midpoint
(7/2, 1/2) is stored into an integer `Point` as (4, 0). -/
theorem midPointInt_exPts_2 : midPointInt (exPts 2) (exPts 3) = (4, 0) := by
  unfold midPointInt
  norm_num [exPts, roundHE_eq]

/-- Claim C5 (amended): for every rotated rectangle given by its corner
points, once the shortest-side search assigns an index `k`, edge `k` has
(weakly) minimal length among the four edges; the drawn principal axis joins
the midpoint of edge `k` (corners `k`, `k+1 mod 4`) and the midpoint of the
opposite edge (corners `k+2 mod 4`, `k+3 mod 4`), each midpoint first rounded
to integer pixel coordinates (round half to even); and the reported size is
half the Euclidean distance between those two *rounded* midpoints (stated on
squares: `size² = (squared distance)/4`). -/
theorem get_size_rounded_midpoints (pts : Fin 4 → ℚ × ℚ) (k : Fin 4)
    (hk : (shortestScan pts).2 = some k) :
    (∀ j : Fin 4, edgeSq pts k ≤ edgeSq pts j) ∧
    axisEndpoints pts =
      some (midPointInt (pts k) (pts (k + 1)),
        midPointInt (pts (k + 2)) (pts (k + 3))) ∧
    get_size_sq pts =
      some (((((midPointInt (pts k) (pts (k + 1))).1 -
            (midPointInt (pts (k + 2)) (pts (k + 3))).1 : ℤ) : ℚ) ^ 2 +
          (((midPointInt (pts k) (pts (k + 1))).2 -
            (midPointInt (pts (k + 2)) (pts (k + 3))).2 : ℤ) : ℚ) ^ 2) / 4) := by
  refine ⟨shortestScan_min pts k hk, ?_, ?_⟩
  · unfold axisEndpoints
    rw [hk]
    rfl
  · unfold get_size_sq
    rw [hk]
    rfl

/-- Claim C5 counterexample: on the rectangle `exPts` with corners (1/2, 0),
(1/2, 1), (7/2, 1), (7/2, 0), the code computes size 2 (squared size 4)
because the midpoints are rounded to integer points (0,0) and (4,0) before
measuring, while half the Euclidean distance between the two exact midpoints
(1/2, 1/2) and (7/2, 1/2) — what the claim states — is 3/2 (squared 9/4). -/
theorem get_size_exact_midpoint_counterexample :
    get_size_sq exPts = some 4 ∧ claimed_size_sq exPts = some (9 / 4) := by
  constructor
  · unfold get_size_sq
    rw [shortestScan_exPts]
    simp only [Option.map_some']
    rw [show ((0 : Fin 4) + 1) = 1 from rfl, show ((0 : Fin 4) + 2) = 2 from rfl,
      show ((0 : Fin 4) + 3) = 3 from rfl]
    rw [midPointInt_exPts_1, midPointInt_exPts_2]
    norm_num
  · unfold claimed_size_sq
    rw [shortestScan_exPts]
    simp only [Option.map_some']
    rw [show ((0 : Fin 4) + 1) = 1 from rfl, show ((0 : Fin 4) + 2) = 2 from rfl,
      show ((0 : Fin 4) + 3) = 3 from rfl]
    norm_num [exPts]

/-- Witness for C5 (amended) at the concrete rectangle `exPts`, index 0. -/
theorem get_size_rounded_midpoints_witness :
    edgeSq exPts 0 ≤ edgeSq exPts 1 ∧
    axisEndpoints exPts =
      some (midPointInt (exPts 0) (exPts (0 + 1)),
        midPointInt (exPts (0 + 2)) (exPts (0 + 3))) :=
  ⟨(get_size_rounded_midpoints exPts 0 (by rw [shortestScan_exPts])).1 1,
   (get_size_rounded_midpoints exPts 0 (by rw [shortestScan_exPts])).2.1⟩

/-- When an object was found but its boundary has 4 or fewer points, the
frame's output drops the pose *and* the position drawing: the result record is
`found = true` with no position, no axis and no size. -/
theorem staticFrame_small_boundary (fitE : Region → Fin 4 → ℚ × ℚ)
    (minA maxA : ℚ) (regions : List Region) (r : Region)
    (hf : (selectBlob minA maxA regions).object_found = true)
    (hr : regions.get? (selectBlob minA maxA regions).max_idx.toNat = some r)
    (hb : r.boundary ≤ 4) :
    staticFrame fitE minA maxA regions = ⟨true, none, none, none⟩ := by
  unfold staticFrame
  dsimp only
  rw [if_pos hf, hr]
  simp only [Option.elim_some]
  rw [if_neg (by omega)]

/-- Blob selection on a single qualifying region of area 5, moments (10, 15)
and a 4-point boundary. -/
theorem selectBlob_single_4pt :
    selectBlob 1 100 [⟨5, 10, 15, 4⟩] = ⟨true, 5, 2, 3, 0⟩ := by
  unfold selectBlob
  rw [selectLoop_cons,
    blobStep_new_max 1 100 selInit 0 ⟨5, 10, 15, 4⟩
      (by constructor <;> norm_num) (by norm_num [selInit])]
  have h1 : ratTrunc ((⟨5, 10, 15, 4⟩ : Region).m10 / (⟨5, 10, 15, 4⟩ : Region).m00)
      = 2 := by
    have he : ((⟨5, 10, 15, 4⟩ : Region).m10 / (⟨5, 10, 15, 4⟩ : Region).m00 : ℚ)
        = ((2 : ℤ) : ℚ) := by norm_num
    rw [he, ratTrunc_intCast]
  have h2 : ratTrunc ((⟨5, 10, 15, 4⟩ : Region).m01 / (⟨5, 10, 15, 4⟩ : Region).m00)
      = 3 := by
    have he : ((⟨5, 10, 15, 4⟩ : Region).m01 / (⟨5, 10, 15, 4⟩ : Region).m00 : ℚ)
        = ((3 : ℤ) : ℚ) := by norm_num
    rw [he, ratTrunc_intCast]
  rw [h1, h2]
  rfl

/-- Claim C1 counterexample: a frame whose single qualifying region has a
4-point boundary.  The detection flag stays true and the pose outputs are
omitted as the claim says, but — contrary to the claim — the position is *not*
reported either: `draw_object_position` is only called inside the
`contours[i].size() > 4` branch (main.cpp lines 874-903). -/
theorem pose_degenerate_counterexample :
    (staticFrame (fun _ _ => (0, 0)) 1 100 [⟨5, 10, 15, 4⟩]).found = true ∧
    (staticFrame (fun _ _ => (0, 0)) 1 100 [⟨5, 10, 15, 4⟩]).position = none := by
  have h := staticFrame_small_boundary (fun _ _ => (0, 0)) 1 100
    [⟨5, 10, 15, 4⟩] ⟨5, 10, 15, 4⟩
    (by rw [selectBlob_single_4pt]) (by rw [selectBlob_single_4pt]; rfl)
    (by norm_num)
  rw [h]
  exact ⟨rfl, rfl⟩

/-- Claim C1 (amended): if the selected region's boundary has 4 or fewer
points, the orientation and size outputs are omitted for that frame and so is
the position drawing; only the internal `object_found` flag remains true.
Pose failure silently suppresses the whole per-frame drawing output, it does
not merely degrade it. -/
theorem pose_degenerate_omits_position (fitE : Region → Fin 4 → ℚ × ℚ)
    (minA maxA : ℚ) (regions : List Region) (r : Region)
    (hf : (selectBlob minA maxA regions).object_found = true)
    (hr : regions.get? (selectBlob minA maxA regions).max_idx.toNat = some r)
    (hb : r.boundary ≤ 4) :
    (staticFrame fitE minA maxA regions).found = true ∧
    (staticFrame fitE minA maxA regions).position = none ∧
    (staticFrame fitE minA maxA regions).axis = none ∧
    (staticFrame fitE minA maxA regions).size_sq = none := by
  rw [staticFrame_small_boundary fitE minA maxA regions r hf hr hb]
  exact ⟨rfl, rfl, rfl, rfl⟩

/-- Witness for C1 (amended) at the concrete single-region frame. -/
theorem pose_degenerate_omits_position_witness :
    (staticFrame (fun _ _ => (0, 0)) 1 100 [⟨5, 10, 15, 4⟩]).position = none ∧
    (staticFrame (fun _ _ => (0, 0)) 1 100 [⟨5, 10, 15, 4⟩]).axis = none ∧
    (staticFrame (fun _ _ => (0, 0)) 1 100 [⟨5, 10, 15, 4⟩]).size_sq = none :=
  (pose_degenerate_omits_position (fun _ _ => (0, 0)) 1 100 [⟨5, 10, 15, 4⟩]
    ⟨5, 10, 15, 4⟩ (by rw [selectBlob_single_4pt])
    (by rw [selectBlob_single_4pt]; rfl) (by norm_num)).2

/-- A mouse-move event changes only the selection rectangle. -/
theorem onMouse_move_fields (rows cols x y : ℤ) (s : CamState) :
    (onMouse rows cols (.mousemove x y) s).select_object = s.select_object ∧
    (onMouse rows cols (.mousemove x y) s).track_object = s.track_object ∧
    (onMouse rows cols (.mousemove x y) s).paused = s.paused ∧
    (onMouse rows cols (.mousemove x y) s).hist_learned = s.hist_learned ∧
    (onMouse rows cols (.mousemove x y) s).origin = s.origin := by
  unfold onMouse
  dsimp only
  split_ifs <;> simp

/-- A sequence of mouse-move events changes only the selection rectangle. -/
theorem movesFold_fields (rows cols : ℤ) (moves : List (ℤ × ℤ)) :
    ∀ s : CamState,
      (movesFold rows cols moves s).select_object = s.select_object ∧
      (movesFold rows cols moves s).track_object = s.track_object ∧
      (movesFold rows cols moves s).paused = s.paused ∧
      (movesFold rows cols moves s).hist_learned = s.hist_learned ∧
      (movesFold rows cols moves s).origin = s.origin := by
  induction moves with
  | nil => exact fun s => ⟨rfl, rfl, rfl, rfl, rfl⟩
  | cons m ms ih =>
    intro s
    have h1 := onMouse_move_fields rows cols m.1 m.2 s
    have h2 := ih (onMouse rows cols (.mousemove m.1 m.2) s)
    unfold movesFold at h2 ⊢
    rw [List.foldl_cons]
    refine ⟨?_, ?_, ?_, ?_, ?_⟩
    · rw [h2.1, h1.1]
    · rw [h2.2.1, h1.2.1]
    · rw [h2.2.2.1, h1.2.2.1]
    · rw [h2.2.2.2.1, h1.2.2.2.1]
    · rw [h2.2.2.2.2, h1.2.2.2.2]

/-- A right-button press records the origin, resets the selection to a
zero-size rectangle there, and starts selecting; nothing else changes. -/
theorem onMouse_down (rows cols x y : ℤ) (s : CamState) :
    onMouse rows cols (.rbuttondown x y) s =
      ⟨true, s.track_object, (x, y), ⟨x, y, 0, 0⟩, s.paused, s.hist_learned⟩ := by
  unfold onMouse
  dsimp only
  split_ifs <;> rfl

/-- A left-button release while selecting: the selection is first updated to
the clipped box `R` between the origin and the release point, selection mode
ends, and `track_object` is set to −1 exactly when `R` has positive width and
height. -/
theorem onMouse_up (rows cols x y : ℤ) (s : CamState)
    (hs : s.select_object = true) (R : CvRect)
    (hR : R = rectInter ⟨min x s.origin.1, min y s.origin.2, |x - s.origin.1|,
      |y - s.origin.2|⟩ ⟨0, 0, cols, rows⟩) :
    onMouse rows cols (.lbuttonup x y) s =
      if 0 < R.width ∧ 0 < R.height then
        ⟨false, -1, s.origin, R, s.paused, s.hist_learned⟩
      else ⟨false, s.track_object, s.origin, R, s.paused, s.hist_learned⟩ := by
  subst hR
  unfold onMouse
  dsimp only
  rw [hs]
  simp only [eq_self_iff_true, if_true]

/-- When not paused and a fresh selection is pending (`track_object < 0`), the
frame step learns the histogram, sets the search window to the selection, and
moves to `track_object = 1`. -/
theorem processFrame_pending (cs : CvRect → CvRect) (rows cols : ℤ)
    (s : CamState) (oi : CvRect) (hp : s.paused = false)
    (ht : s.track_object = -1) :
    processFrame cs rows cols s oi =
      ({ s with hist_learned := true, track_object := 1 },
        reinflate rows cols (cs s.selection)) := by
  unfold processFrame
  rw [hp, ht]
  norm_num

/-- When not paused and no tracking is active (`track_object = 0`), the frame
step leaves the state and search window unchanged. -/
theorem processFrame_idle (cs : CvRect → CvRect) (rows cols : ℤ)
    (s : CamState) (oi : CvRect) (hp : s.paused = false)
    (ht : s.track_object = 0) :
    processFrame cs rows cols s oi = (s, oi) := by
  unfold processFrame
  rw [hp, ht]
  norm_num

/-- Claim C6: starting from Idle, a begin-selection / update-selection /
end-selection sequence whose final rectangle has positive width and height
sets `track_object = -1`, and the next processed frame learns the histogram
and reaches the Tracking state (`track_object = 1`); an end-selection whose
rectangle has zero width or zero height leaves the tracker Idle
(`track_object = 0`, no selection in progress, no model learned) and the next
processed frame changes nothing. -/
theorem selection_state_machine (rows cols : ℤ) (cs : CvRect → CvRect)
    (s0 s3 : CamState) (oi : CvRect) (h : IdleState s0) (x0 y0 : ℤ)
    (moves : List (ℤ × ℤ)) (x1 y1 : ℤ)
    (h3 : selSeq rows cols x0 y0 moves x1 y1 s0 = s3) :
    (0 < s3.selection.width ∧ 0 < s3.selection.height →
      s3.track_object = -1 ∧ s3.select_object = false ∧
      (processFrame cs rows cols s3 oi).1.track_object = 1 ∧
      (processFrame cs rows cols s3 oi).1.hist_learned = true) ∧
    (s3.selection.width = 0 ∨ s3.selection.height = 0 →
      s3.track_object = 0 ∧ s3.select_object = false ∧ s3.hist_learned = false ∧
      processFrame cs rows cols s3 oi = (s3, oi)) := by
  obtain ⟨hsel, htr, hp, hh⟩ := h
  unfold selSeq at h3
  rw [onMouse_down] at h3
  set sD : CamState :=
    ⟨true, s0.track_object, (x0, y0), ⟨x0, y0, 0, 0⟩, s0.paused, s0.hist_learned⟩
    with hsD
  set sM := movesFold rows cols moves sD with hM
  obtain ⟨hm1, hm2, hm3, hm4, _⟩ := movesFold_fields rows cols moves sD
  rw [← hM] at hm1 hm2 hm3 hm4
  rw [hsD] at hm1 hm2 hm3 hm4
  dsimp only at hm1 hm2 hm3 hm4
  rw [htr] at hm2
  rw [hp] at hm3
  rw [hh] at hm4
  rw [onMouse_up rows cols x1 y1 sM hm1 _ rfl] at h3
  set R : CvRect :=
    rectInter ⟨min x1 sM.origin.1, min y1 sM.origin.2, |x1 - sM.origin.1|,
      |y1 - sM.origin.2|⟩ ⟨0, 0, cols, rows⟩ with hR
  by_cases hwh : 0 < R.width ∧ 0 < R.height
  · rw [if_pos hwh] at h3
    have e1 : s3.track_object = -1 := by rw [← h3]
    have e2 : s3.select_object = false := by rw [← h3]
    have e3 : s3.selection = R := by rw [← h3]
    have e4 : s3.paused = false := by rw [← h3]; exact hm3
    refine ⟨fun _ => ⟨e1, e2, ?_, ?_⟩, fun hzero => absurd hwh ?_⟩
    · rw [processFrame_pending cs rows cols s3 oi e4 e1]
    · rw [processFrame_pending cs rows cols s3 oi e4 e1]
    · rw [e3] at hzero
      rcases hzero with hz | hz
      · rw [hz]
        simp
      · rw [hz]
        simp
  · rw [if_neg hwh] at h3
    have e1 : s3.track_object = 0 := by rw [← h3]; exact hm2
    have e2 : s3.select_object = false := by rw [← h3]
    have e3 : s3.selection = R := by rw [← h3]
    have e4 : s3.paused = false := by rw [← h3]; exact hm3
    have e5 : s3.hist_learned = false := by rw [← h3]; exact hm4
    refine ⟨fun hpos => absurd ?_ hwh, fun _ => ⟨e1, e2, e5, ?_⟩⟩
    · rw [← e3]
      exact hpos
    · exact processFrame_idle cs rows cols s3 oi e4 e1

/-- Witness for C6 at a concrete run: from Idle on a 100×100 frame, press at
(10, 10), move to (30, 20), release at (30, 20); the selection is the 20×10
rectangle at (10, 10) and the next processed frame reaches Tracking with a
learned histogram. -/
theorem selection_state_machine_witness :
    (⟨false, -1, (10, 10), ⟨10, 10, 20, 10⟩, false, false⟩ : CamState).track_object
        = -1 ∧
    (⟨false, -1, (10, 10), ⟨10, 10, 20, 10⟩, false, false⟩ : CamState).select_object
        = false ∧
    (processFrame id 100 100 ⟨false, -1, (10, 10), ⟨10, 10, 20, 10⟩, false, false⟩
        ⟨0, 0, 0, 0⟩).1.track_object = 1 ∧
    (processFrame id 100 100 ⟨false, -1, (10, 10), ⟨10, 10, 20, 10⟩, false, false⟩
        ⟨0, 0, 0, 0⟩).1.hist_learned = true :=
  (selection_state_machine 100 100 id ⟨false, 0, (0, 0), ⟨0, 0, 0, 0⟩, false, false⟩
      ⟨false, -1, (10, 10), ⟨10, 10, 20, 10⟩, false, false⟩ ⟨0, 0, 0, 0⟩
      (by exact ⟨rfl, rfl, rfl, rfl⟩) 10 10 [(30, 20)] 30 20 (by decide)).1
    (by decide)
